import Mathlib

/-!
Shallow embedding of `src/substrate_permittivity_extraction.py`
(substrate permittivity extraction from a ring-resonator S21 trace).

Conventions of the embedding:
* Python/numpy floating-point values are modelled as exact numbers:
  the trace data (frequencies, magnitudes in dB) as rationals `ℚ`, so that
  every comparison the code performs is decidable, and the permittivity
  formulas (which involve a real square root) over the reals `ℝ`.
* Lean's total field division (`x / 0 = 0`) stands in for Python division;
  where a claim hinges on a division-by-zero edge case this caveat is
  recorded at the theorem.
* numpy `nan` results (the loss-tangent code stores `np.nan` for an
  unresolved half-power window) are modelled as `Option.none`.
* The `while` loops of the source are translated into structurally
  recursive functions; the two loops whose index moves away from the
  recursion variable carry an explicit fuel argument that exactly mirrors
  the loop bound (`fuel = last - index`, so `fuel > 0 ↔ index < last`).
-/

namespace SubstratePermittivity

/-- Speed of light in vacuum (m/s), constant `C0` of the source. -/
def C0 : ℝ := 299792458

/-! ### Peak detection (`find_s21_peaks`, source lines 52-61)

The source calls `scipy.signal.find_peaks(mag_db, height=threshold)` with
`threshold = np.median(mag_db) + min_peak_db`.  We embed scipy's
`_local_maxima_1d` routine faithfully: starting at `i = 1` and scanning
while `i < i_max = len(x) - 1`, a strictly rising sample `x[i-1] < x[i]`
opens a candidate plateau, the inner loop advances `i_ahead` while
`i_ahead < i_max` and `x[i_ahead] == x[i]`, and the plateau is recorded as
a peak (at the plateau midpoint `(left + right) // 2`) when it is followed
by a strictly smaller sample.  The `height` keyword then keeps exactly the
peaks `p` with `threshold ≤ x[p]`. -/

/-- Inner loop of scipy's `_local_maxima_1d`: advance `iAhead` while
`iAhead < iMax` and `x[iAhead] == x[i]`.  The fuel equals `iMax - iAhead`,
so `fuel > 0` is exactly the guard `iAhead < iMax`. -/
def scanAheadAux (x : List ℚ) (xi : ℚ) : ℕ → ℕ → ℕ
  | 0, iAhead => iAhead
  | fuel + 1, iAhead =>
      if x.getD iAhead 0 = xi then scanAheadAux x xi fuel (iAhead + 1) else iAhead

/-- Outer loop of scipy's `_local_maxima_1d`.  The loop variable `i`
strictly increases each iteration, so `fuel = x.length` iterations always
suffice; the genuine loop guard `i < iMax` is tested explicitly. -/
def localMaximaAux (x : List ℚ) (iMax : ℕ) : ℕ → ℕ → List ℕ
  | 0, _ => []
  | fuel + 1, i =>
      if iMax ≤ i then []
      else if x.getD (i - 1) 0 < x.getD i 0 then
        let iAhead := scanAheadAux x (x.getD i 0) (iMax - (i + 1)) (i + 1)
        if x.getD iAhead 0 < x.getD i 0 then
          ((i + (iAhead - 1)) / 2) :: localMaximaAux x iMax fuel (iAhead + 1)
        else localMaximaAux x iMax fuel (i + 1)
      else localMaximaAux x iMax fuel (i + 1)

/-- Indices of all local maxima of `x`, as scipy's `_local_maxima_1d`
computes them (plateau midpoints; endpoints are never peaks). -/
def localMaxima (x : List ℚ) : List ℕ :=
  localMaximaAux x (x.length - 1) x.length 1

/-- Median of a list, as `np.median`: the middle element of the sorted data
for odd length, the mean of the two middle elements for even length.
(`np.median` sorts; for a linear order the sorted copy is unique, so the
particular sorting algorithm is immaterial.) -/
def median (x : List ℚ) : ℚ :=
  let s := List.insertionSort (· ≤ ·) x
  if x.length % 2 = 1 then s.getD (x.length / 2) 0
  else (s.getD (x.length / 2 - 1) 0 + s.getD (x.length / 2) 0) / 2

/-- Source `find_s21_peaks` (lines 52-61): local maxima of the magnitude
trace whose height is at least `median(mag_db) + min_peak_db`. -/
def find_s21_peaks (mag_db : List ℚ) (min_peak_db : ℚ) : List ℕ :=
  let threshold := median mag_db + min_peak_db
  (localMaxima mag_db).filter (fun p => threshold ≤ mag_db.getD p 0)

/-! ### Loss estimation (`calculate_loss_tangent`, source lines 63-89) -/

/-- Left scan of the -3 dB window (source lines 72-75):
`left = peak_idx; while left > 0 and mag_db[left] > half_mag: left -= 1`. -/
def searchLeft (mag_db : List ℚ) (halfMag : ℚ) : ℕ → ℕ
  | 0 => 0
  | k + 1 => if halfMag < mag_db.getD (k + 1) 0 then searchLeft mag_db halfMag k else k + 1

/-- Right scan of the -3 dB window, fuel form: the fuel equals
`(len - 1) - right`, so `fuel > 0` is exactly the guard `right < len - 1`. -/
def searchRightAux (mag_db : List ℚ) (halfMag : ℚ) : ℕ → ℕ → ℕ
  | 0, r => r
  | fuel + 1, r =>
      if halfMag < mag_db.getD r 0 then searchRightAux mag_db halfMag fuel (r + 1) else r

/-- Right scan of the -3 dB window (source lines 76-79):
`right = peak_idx; while right < len(mag_db) - 1 and mag_db[right] > half_mag: right += 1`. -/
def searchRight (mag_db : List ℚ) (halfMag : ℚ) (peakIdx : ℕ) : ℕ :=
  searchRightAux mag_db halfMag (mag_db.length - 1 - peakIdx) peakIdx

/-- Loop body of `calculate_loss_tangent` for one peak (source lines 69-88).
`np.nan` (undefined Q or loss tangent) is modelled as `none`:
`Q = f0 / bw if bw > 0 else nan` and `loss = 1 / Q if Q > 0 else nan`;
a `nan` Q fails the IEEE comparison `Q > 0`, hence also yields `none`. -/
def lossTangentAt (freq mag_db : List ℚ) (peakIdx : ℕ) : Option ℚ :=
  let peakMag := mag_db.getD peakIdx 0
  let halfMag := peakMag - 3
  let left := searchLeft mag_db halfMag peakIdx
  let right := searchRight mag_db halfMag peakIdx
  let fLeft := freq.getD left 0
  let fRight := freq.getD right 0
  let f0 := freq.getD peakIdx 0
  let bw := fRight - fLeft
  let Q : Option ℚ := if 0 < bw then some (f0 / bw) else none
  match Q with
  | some q => if 0 < q then some (1 / q) else none
  | none => none

/-- Source `calculate_loss_tangent` (lines 63-89): one loss-tangent value
per peak, in peak order (the source appends to a list in a `for` loop). -/
def calculate_loss_tangent (freq mag_db : List ℚ) (peaks : List ℕ) : List (Option ℚ) :=
  peaks.map (lossTangentAt freq mag_db)

/-! ### Permittivity calculation (source lines 44-50 and 120-122) -/

/-- Source `microstrip_eps_r` (lines 44-50): substrate permittivity from
effective permittivity, substrate height `h` and trace width `w`, by the
inverted microstrip (Hammerstad-type) equation
`a = 1 / sqrt(1 + 12 h / w)`, `eps_r = (2 eps_eff + a - 1) / (1 + a)`.
The source performs no validation of `h` or `w`; for `w = 0` Python raises
`ZeroDivisionError` inside this arithmetic, while Lean's total division
makes the function defined everywhere. -/
noncomputable def microstrip_eps_r (eps_eff h w : ℝ) : ℝ :=
  let a := 1 / Real.sqrt (1 + 12 * h / w)
  (2 * eps_eff + a - 1) / (1 + a)

/-- Source `estimate_effective_length` (lines 91-95): back-calculated
effective ring length `L = C0 · n / (f · sqrt(eps))` from a known
resonance.  The source performs no validation of its inputs. -/
noncomputable def estimate_effective_length (eps_known freq_Hz : ℝ) (mode_n : ℕ) : ℝ :=
  (C0 * mode_n) / (freq_Hz * Real.sqrt eps_known)

/-- Ring resonance condition as evaluated per mode in `main` (line 121):
`eps_eff = (C0 · n / (f0 · L))²`.  (The source writes it inline and
vectorized; the spec calls it `effectivePermittivity`.) -/
noncomputable def effectivePermittivity (mode_n : ℕ) (f0 L : ℝ) : ℝ :=
  (C0 * mode_n / (f0 * L)) ^ 2

/-- Vectorized `eps_eff` computation of `main` (line 121): mode numbers are
`1, 2, ...` in peak order (`np.arange(1, len(freqs) + 1)`), applied
elementwise over the detected resonant frequencies. -/
noncomputable def eps_eff_list (freqs : List ℚ) (L : ℝ) : List ℝ :=
  (List.range freqs.length).map (fun i => effectivePermittivity (i + 1) (freqs.getD i 0 : ℝ) L)

/-- Vectorized `eps_r` computation of `main` (line 122): `microstrip_eps_r`
applied elementwise and independently to every mode's `eps_eff`. -/
noncomputable def eps_r_list (epsEffs : List ℝ) (h w : ℝ) : List ℝ :=
  epsEffs.map (fun e => microstrip_eps_r e h w)

/-! ### Pipeline driver (`main`, source lines 97-144, core part) -/

/-- Calibration inputs (CONFIG constants `CALIBRATION_EPSILON`,
`CALIBRATION_FREQ_HZ`, `CALIBRATION_MODE_N`, lines 29-31). -/
structure CalibConfig where
  eps : ℝ
  freqHz : ℝ
  modeN : ℕ

/-- Run configuration: the CONFIG block constants consumed by the core
(lines 18-31).  `calibrate = some c` models `CALIBRATE_L = True`. -/
structure Config where
  ringLengthMM : ℝ
  substrateHMM : ℝ
  traceWMM : ℝ
  minPeakDb : ℚ
  calibrate : Option CalibConfig

/-- Per-mode row of the result table `main` assembles (lines 131-133).
`loss_tan = none` models a `np.nan` loss tangent. -/
structure ExtractionResult where
  mode_n : ℕ
  freq_Hz : ℚ
  eps_eff : ℝ
  eps_r : ℝ
  loss_tan : Option ℚ

instance : Inhabited ExtractionResult := ⟨⟨0, 0, 0, 0, none⟩⟩

/-- Fatal conditions of the spec's error taxonomy (§7).  The source only
ever raises the first one (`RuntimeError` at line 109, "No peaks
detected"); `InvalidGeometry` and `InvalidCalibrationInput` appear nowhere
in the source, which is what the theorems below establish. -/
inductive PipelineError
  | NoPeaksDetected
  | InvalidGeometry
  | InvalidCalibrationInput
deriving DecidableEq

/-- Ring length selection of `main` (lines 112-116): the calibration
estimate when `CALIBRATE_L` is set, otherwise `RING_LENGTH_MM / 1e3`. -/
noncomputable def ringLengthOf (cfg : Config) : ℝ :=
  match cfg.calibrate with
  | some c => estimate_effective_length c.eps c.freqHz c.modeN
  | none => cfg.ringLengthMM / 1000

/-- Core of `main` (lines 104-133): detect peaks, take their resonant
frequencies, abort with `NoPeaksDetected` when there are none (line 109),
otherwise select the ring length, convert dimensions to meters, compute
`eps_eff` and `eps_r` elementwise, the per-peak loss tangents, and
assemble the result table (one row per mode, in mode order). -/
noncomputable def mainCore (freq mag_db : List ℚ) (cfg : Config) :
    Except PipelineError (List ExtractionResult) :=
  let peaks := find_s21_peaks mag_db cfg.minPeakDb
  let freqs := peaks.map (fun p => freq.getD p 0)
  if freqs.length = 0 then .error .NoPeaksDetected
  else
    let L := ringLengthOf cfg
    let h := cfg.substrateHMM / 1000
    let w := cfg.traceWMM / 1000
    let epsEffs := eps_eff_list freqs L
    let epsRs := eps_r_list epsEffs h w
    let lossTans := calculate_loss_tangent freq mag_db peaks
    .ok ((List.range freqs.length).map (fun i =>
      ⟨i + 1, freqs.getD i 0, epsEffs.getD i 0, epsRs.getD i 0, lossTans.getD i none⟩))

/-! ### General helper lemmas -/

/-- The `i`-th entry (within range) of a map over `List.range`. -/
lemma getD_map_range {β : Type} (n : ℕ) (f : ℕ → β) (i : ℕ) (d : β) (hi : i < n) :
    (((List.range n).map f).getD i d) = f i := by
  rw [List.getD_eq_getElem _ _ (by simpa using hi)]
  simp

/-- The `i`-th entry (within range) of a mapped list. -/
lemma getD_map {α β : Type} (l : List α) (f : α → β) (i : ℕ) (d : β) (dα : α)
    (hi : i < l.length) :
    ((l.map f).getD i d) = f (l.getD i dα) := by
  rw [List.getD_eq_getElem _ _ (by simpa using hi), List.getD_eq_getElem _ _ hi]
  simp

lemma C0_pos : 0 < C0 := by norm_num [C0]

/-- Claim C1: for every detected mode (position `i`, mode number `i + 1`)
the pipeline's effective permittivity is `(C0 · n / (f0 · L))²` with
`C0 = 299792458`, and the substrate permittivity is
`(2 · eps_eff + a − 1) / (1 + a)` with `a = 1 / sqrt(1 + 12 h / w)`,
computed elementwise and independently per mode. -/
theorem permittivity_calculator_formulas (freqs : List ℚ) (L h w : ℝ) (i : ℕ)
    (hi : i < freqs.length) :
    C0 = 299792458 ∧
    (eps_eff_list freqs L).getD i 0 =
      (C0 * (i + 1) / ((freqs.getD i 0 : ℝ) * L)) ^ 2 ∧
    (eps_r_list (eps_eff_list freqs L) h w).getD i 0 =
      (2 * ((eps_eff_list freqs L).getD i 0) + 1 / Real.sqrt (1 + 12 * h / w) - 1) /
        (1 + 1 / Real.sqrt (1 + 12 * h / w)) := by
  have hlen : (eps_eff_list freqs L).length = freqs.length := by
    simp [eps_eff_list]
  refine ⟨rfl, ?_, ?_⟩
  · rw [eps_eff_list, getD_map_range _ _ _ _ hi]
    simp [effectivePermittivity]
  · rw [eps_r_list, getD_map _ _ _ _ 0 (by rw [hlen]; exact hi)]
    simp [microstrip_eps_r]

/-- Witness for C1 at a concrete detected mode. -/
theorem permittivity_calculator_formulas_witness :
    C0 = 299792458 ∧
    (eps_eff_list [2] 1).getD 0 0 =
      (C0 * (((0 : ℕ) : ℝ) + 1) / ((([(2 : ℚ)].getD 0 0) : ℝ) * 1)) ^ 2 ∧
    (eps_r_list (eps_eff_list [2] 1) 1 1).getD 0 0 =
      (2 * ((eps_eff_list [2] 1).getD 0 0) + 1 / Real.sqrt (1 + 12 * 1 / 1) - 1) /
        (1 + 1 / Real.sqrt (1 + 12 * 1 / 1)) :=
  permittivity_calculator_formulas [2] 1 1 1 0 (by decide)

/-- Claim C3: calibrating the length from a known resonance and then
re-computing the effective permittivity at that resonance reproduces the
known permittivity exactly, hence in particular within `1e-9` relative
tolerance. -/
theorem calibration_round_trip (eps_known freq_known : ℝ) (mode_known : ℕ)
    (heps : 0 < eps_known) (hf : 0 < freq_known) (hn : 0 < mode_known) :
    effectivePermittivity mode_known freq_known
        (estimate_effective_length eps_known freq_known mode_known) = eps_known ∧
    |effectivePermittivity mode_known freq_known
        (estimate_effective_length eps_known freq_known mode_known) - eps_known| ≤
      (1 / 1000000000) * eps_known := by
  have hs : 0 < Real.sqrt eps_known := Real.sqrt_pos.mpr heps
  have hC0 : (C0 : ℝ) ≠ 0 := ne_of_gt C0_pos
  have hnR : (mode_known : ℝ) ≠ 0 := Nat.cast_ne_zero.mpr hn.ne'
  have key : effectivePermittivity mode_known freq_known
      (estimate_effective_length eps_known freq_known mode_known) = eps_known := by
    rw [effectivePermittivity, estimate_effective_length]
    rw [show freq_known * (C0 * mode_known / (freq_known * Real.sqrt eps_known)) =
        C0 * mode_known / Real.sqrt eps_known by
      field_simp
      ring]
    rw [show C0 * (mode_known : ℝ) / (C0 * mode_known / Real.sqrt eps_known) =
        Real.sqrt eps_known by
      field_simp]
    exact Real.sq_sqrt heps.le
  refine ⟨key, ?_⟩
  rw [key]
  simp only [sub_self, abs_zero]
  positivity

/-- Witness for C3: a known permittivity of 4 at 1 Hz, mode 1. -/
theorem calibration_round_trip_witness :
    effectivePermittivity 1 1 (estimate_effective_length 4 1 1) = 4 :=
  (calibration_round_trip 4 1 1 (by norm_num) (by norm_num) (by norm_num)).1

/-- Claim C9: for fixed positive height and width, the substrate
permittivity is strictly increasing in the effective permittivity. -/
theorem substrate_permittivity_monotone (h w e1 e2 : ℝ) (hh : 0 < h) (hw : 0 < w)
    (he : e1 < e2) : microstrip_eps_r e1 h w < microstrip_eps_r e2 h w := by
  have harg : 0 < 1 + 12 * h / w := by positivity
  have ha : 0 < 1 / Real.sqrt (1 + 12 * h / w) := by
    have hs := Real.sqrt_pos.mpr harg
    positivity
  simp only [microstrip_eps_r]
  have hc : 0 < 1 + 1 / Real.sqrt (1 + 12 * h / w) := by linarith
  exact (div_lt_div_iff_of_pos_right hc).mpr (by linarith)

/-- Witness for C9 at concrete geometry and effective permittivities. -/
theorem substrate_permittivity_monotone_witness :
    microstrip_eps_r 1 1 1 < microstrip_eps_r 2 1 1 :=
  substrate_permittivity_monotone 1 1 1 2 (by norm_num) (by norm_num) (by norm_num)

/-- Claim C4: if peak detection returns no peaks, the pipeline driver
aborts with the fatal `NoPeaksDetected` condition; the `Except.error`
result carries no result rows and no aggregates. -/
theorem no_peaks_aborts (freq mag_db : List ℚ) (cfg : Config)
    (hempty : find_s21_peaks mag_db cfg.minPeakDb = []) :
    mainCore freq mag_db cfg = .error .NoPeaksDetected := by
  simp [mainCore, hempty]

/-- Witness for C4: an all-flat trace yields no peaks and the run aborts. -/
theorem no_peaks_aborts_witness :
    mainCore [1, 2, 3] [0, 0, 0] ⟨100, 1.6, 3, 16, none⟩ = .error .NoPeaksDetected :=
  no_peaks_aborts [1, 2, 3] [0, 0, 0] ⟨100, 1.6, 3, 16, none⟩ (by decide)

/-! ### Properties of the -3 dB window scans -/

lemma searchLeft_le (mag_db : List ℚ) (halfMag : ℚ) : ∀ p, searchLeft mag_db halfMag p ≤ p := by
  intro p
  induction p with
  | zero => simp [searchLeft]
  | succ k ih =>
      rw [searchLeft]
      split
      · exact ih.trans (Nat.le_succ k)
      · exact le_refl _

lemma searchLeft_window (mag_db : List ℚ) (halfMag : ℚ) :
    ∀ p j, searchLeft mag_db halfMag p < j → j ≤ p → halfMag < mag_db.getD j 0 := by
  intro p
  induction p with
  | zero => intro j h1 h2; omega
  | succ k ih =>
      intro j h1 h2
      rw [searchLeft] at h1
      by_cases hc : halfMag < mag_db.getD (k + 1) 0
      · rw [if_pos hc] at h1
        rcases Nat.lt_or_ge j (k + 1) with hj | hj
        · exact ih j h1 (by omega)
        · have : j = k + 1 := by omega
          rw [this]; exact hc
      · rw [if_neg hc] at h1
        omega

lemma searchLeft_exit (mag_db : List ℚ) (halfMag : ℚ) (p : ℕ) :
    searchLeft mag_db halfMag p = 0 ∨
      ¬ halfMag < mag_db.getD (searchLeft mag_db halfMag p) 0 := by
  induction p with
  | zero => left; simp [searchLeft]
  | succ k ih =>
      rw [searchLeft]
      by_cases hc : halfMag < mag_db.getD (k + 1) 0
      · rw [if_pos hc]; exact ih
      · rw [if_neg hc]; right; exact hc

lemma searchRightAux_ge (mag_db : List ℚ) (halfMag : ℚ) :
    ∀ fuel r, r ≤ searchRightAux mag_db halfMag fuel r := by
  intro fuel
  induction fuel with
  | zero => intro r; simp [searchRightAux]
  | succ n ih =>
      intro r
      rw [searchRightAux]
      split
      · exact (Nat.le_succ r).trans (ih (r + 1))
      · exact le_refl _

lemma searchRightAux_le (mag_db : List ℚ) (halfMag : ℚ) :
    ∀ fuel r, searchRightAux mag_db halfMag fuel r ≤ r + fuel := by
  intro fuel
  induction fuel with
  | zero => intro r; simp [searchRightAux]
  | succ n ih =>
      intro r
      rw [searchRightAux]
      split
      · exact (ih (r + 1)).trans (by omega)
      · omega

lemma searchRightAux_window (mag_db : List ℚ) (halfMag : ℚ) :
    ∀ fuel r j, r ≤ j → j < searchRightAux mag_db halfMag fuel r →
      halfMag < mag_db.getD j 0 := by
  intro fuel
  induction fuel with
  | zero => intro r j h1 h2; rw [searchRightAux] at h2; omega
  | succ n ih =>
      intro r j h1 h2
      rw [searchRightAux] at h2
      by_cases hc : halfMag < mag_db.getD r 0
      · rw [if_pos hc] at h2
        rcases Nat.lt_or_ge r j with hj | hj
        · exact ih (r + 1) j (by omega) h2
        · have : j = r := by omega
          rw [this]; exact hc
      · rw [if_neg hc] at h2
        omega

lemma searchRightAux_exit (mag_db : List ℚ) (halfMag : ℚ) :
    ∀ fuel r, searchRightAux mag_db halfMag fuel r = r + fuel ∨
      ¬ halfMag < mag_db.getD (searchRightAux mag_db halfMag fuel r) 0 := by
  intro fuel
  induction fuel with
  | zero => intro r; left; simp [searchRightAux]
  | succ n ih =>
      intro r
      rw [searchRightAux]
      by_cases hc : halfMag < mag_db.getD r 0
      · rw [if_pos hc]
        rcases ih (r + 1) with h | h
        · left; omega
        · right; exact h
      · rw [if_neg hc]; right; exact hc

lemma searchRight_ge (mag_db : List ℚ) (halfMag : ℚ) (p : ℕ) :
    p ≤ searchRight mag_db halfMag p :=
  searchRightAux_ge mag_db halfMag _ p

lemma searchRight_le_last (mag_db : List ℚ) (halfMag : ℚ) (p : ℕ) (hp : p < mag_db.length) :
    searchRight mag_db halfMag p ≤ mag_db.length - 1 := by
  have h := searchRightAux_le mag_db halfMag (mag_db.length - 1 - p) p
  rw [searchRight]
  omega

/-- Positivity of any defined loss tangent: the source only forms `1 / Q`
after checking `Q > 0`. -/
lemma lossTangentAt_pos (freq mag_db : List ℚ) (p : ℕ) (v : ℚ)
    (h : lossTangentAt freq mag_db p = some v) : 0 < v := by
  simp only [lossTangentAt] at h
  by_cases hbw : 0 < freq.getD (searchRight mag_db (mag_db.getD p 0 - 3) p) 0 -
      freq.getD (searchLeft mag_db (mag_db.getD p 0 - 3) p) 0
  · rw [if_pos hbw] at h
    simp only at h
    by_cases hq : 0 < freq.getD p 0 /
        (freq.getD (searchRight mag_db (mag_db.getD p 0 - 3) p) 0 -
          freq.getD (searchLeft mag_db (mag_db.getD p 0 - 3) p) 0)
    · rw [if_pos hq] at h
      have hv : v = 1 / (freq.getD p 0 /
          (freq.getD (searchRight mag_db (mag_db.getD p 0 - 3) p) 0 -
            freq.getD (searchLeft mag_db (mag_db.getD p 0 - 3) p) 0)) := by
        exact (Option.some_inj.mp h).symm
      rw [hv]
      exact one_div_pos.mpr hq
    · rw [if_neg hq] at h
      exact absurd h (by simp)
  · rw [if_neg hbw] at h
    exact absurd h (by simp)

/-- Claim C5: the loss estimator uses `halfMag = magnitude(p) − 3`, scans
left from `p` while `index > 0` and the magnitude stays above `halfMag`,
scans right while `index < last` and the magnitude stays above `halfMag`,
and returns `1/Q` with `Q = f(p) / (f(right) − f(left))` whenever that
bandwidth is strictly positive (the resonant frequency being positive, as
every trace frequency is). -/
theorem loss_estimator_formula (freq mag_db : List ℚ) (p : ℕ)
    (hf0 : 0 < freq.getD p 0)
    (hbw : 0 < freq.getD (searchRight mag_db (mag_db.getD p 0 - 3) p) 0 -
        freq.getD (searchLeft mag_db (mag_db.getD p 0 - 3) p) 0) :
    lossTangentAt freq mag_db p =
      some (1 / (freq.getD p 0 /
        (freq.getD (searchRight mag_db (mag_db.getD p 0 - 3) p) 0 -
          freq.getD (searchLeft mag_db (mag_db.getD p 0 - 3) p) 0))) ∧
    searchLeft mag_db (mag_db.getD p 0 - 3) p ≤ p ∧
    p ≤ searchRight mag_db (mag_db.getD p 0 - 3) p ∧
    (∀ j, searchLeft mag_db (mag_db.getD p 0 - 3) p < j → j ≤ p →
      mag_db.getD p 0 - 3 < mag_db.getD j 0) ∧
    (searchLeft mag_db (mag_db.getD p 0 - 3) p = 0 ∨
      ¬ mag_db.getD p 0 - 3 < mag_db.getD (searchLeft mag_db (mag_db.getD p 0 - 3) p) 0) ∧
    (∀ j, p ≤ j → j < searchRight mag_db (mag_db.getD p 0 - 3) p →
      mag_db.getD p 0 - 3 < mag_db.getD j 0) ∧
    (mag_db.length - 1 ≤ searchRight mag_db (mag_db.getD p 0 - 3) p ∨
      ¬ mag_db.getD p 0 - 3 <
        mag_db.getD (searchRight mag_db (mag_db.getD p 0 - 3) p) 0) := by
  have hq : 0 < freq.getD p 0 /
      (freq.getD (searchRight mag_db (mag_db.getD p 0 - 3) p) 0 -
        freq.getD (searchLeft mag_db (mag_db.getD p 0 - 3) p) 0) := div_pos hf0 hbw
  refine ⟨?_, searchLeft_le mag_db _ p, searchRight_ge mag_db _ p,
    searchLeft_window mag_db _ p, searchLeft_exit mag_db _ p,
    searchRightAux_window mag_db _ _ p, ?_⟩
  · simp only [lossTangentAt]
    rw [if_pos hbw]
    simp only
    rw [if_pos hq]
  · rcases searchRightAux_exit mag_db (mag_db.getD p 0 - 3) (mag_db.length - 1 - p) p with
      h | h
    · left; rw [searchRight]; omega
    · right; exact h

/-- Witness for C5 at a single sharp peak in the middle of a 3-point trace. -/
theorem loss_estimator_formula_witness :
    lossTangentAt [1, 2, 3] [0, 5, 0] 1 =
      some (1 / ([(1 : ℚ), 2, 3].getD 1 0 /
        ([(1 : ℚ), 2, 3].getD (searchRight [0, 5, 0] ([(0 : ℚ), 5, 0].getD 1 0 - 3) 1) 0 -
          [(1 : ℚ), 2, 3].getD (searchLeft [0, 5, 0] ([(0 : ℚ), 5, 0].getD 1 0 - 3) 1) 0))) :=
  (loss_estimator_formula [1, 2, 3] [0, 5, 0] 1 (by decide)
    (by norm_num [searchRight, searchRightAux, searchLeft])).1

/-- Claim C6: a non-positive half-power bandwidth yields a missing value
(`none`, the model of `np.nan`), never an exception; the whole per-peak
list is still computed elementwise, and a successful run still reports one
result row (with permittivities) per detected peak. -/
theorem undefined_loss_recoverable (freq mag_db : List ℚ) (peaks : List ℕ) (p : ℕ)
    (hp : p ∈ peaks)
    (hbw : freq.getD (searchRight mag_db (mag_db.getD p 0 - 3) p) 0 -
        freq.getD (searchLeft mag_db (mag_db.getD p 0 - 3) p) 0 ≤ 0) :
    lossTangentAt freq mag_db p = none ∧
    (calculate_loss_tangent freq mag_db peaks).length = peaks.length ∧
    (∀ i, i < peaks.length →
      (calculate_loss_tangent freq mag_db peaks).getD i none =
        lossTangentAt freq mag_db (peaks.getD i 0)) ∧
    (∀ cfg : Config, ∀ res, mainCore freq mag_db cfg = .ok res →
      res.length = (find_s21_peaks mag_db cfg.minPeakDb).length) := by
  refine ⟨?_, by simp [calculate_loss_tangent], ?_, ?_⟩
  · simp only [lossTangentAt]
    rw [if_neg (by exact not_lt.mpr hbw)]
  · intro i hi
    exact getD_map peaks (lossTangentAt freq mag_db) i none 0 hi
  · intro cfg res hres
    simp only [mainCore] at hres
    by_cases hlen :
        ((find_s21_peaks mag_db cfg.minPeakDb).map (fun q => freq.getD q 0)).length = 0
    · rw [if_pos hlen] at hres
      exact absurd hres (by simp)
    · rw [if_neg hlen] at hres
      have := Except.ok.inj hres
      rw [← this]
      simp

/-- Witness for C6: a single-sample trace whose half-power window
degenerates to bandwidth 0. -/
theorem undefined_loss_recoverable_witness : lossTangentAt [1] [5] 0 = none :=
  (undefined_loss_recoverable [1] [5] [0] 0 (by decide)
    (by norm_num [searchRight, searchRightAux, searchLeft])).1

/-- Frequencies of a strictly-sorted trace are monotone under `getD`. -/
lemma sorted_getD_mono (freq : List ℚ) (hsort : List.Sorted (fun a b => a < b) freq)
    (i j : ℕ) (hij : i ≤ j) (hj : j < freq.length) : freq.getD i 0 ≤ freq.getD j 0 := by
  rcases Nat.eq_or_lt_of_le hij with h | h
  · rw [h]
  · have hi : i < freq.length := h.trans hj
    rw [List.getD_eq_getElem _ _ hi, List.getD_eq_getElem _ _ hj]
    have := hsort.get_strictMono (show (⟨i, hi⟩ : Fin freq.length) < ⟨j, hj⟩ from h)
    simpa [List.get_eq_getElem] using this.le

/-- Claim C10: for a strictly-increasing frequency axis and in-range peak
indices, the half-power window always satisfies `left ≤ p ≤ right`, the
bandwidth is never negative, the loss-tangent list has exactly one entry
per peak in peak order, and every defined entry is strictly positive. -/
theorem loss_list_invariants (freq mag_db : List ℚ) (peaks : List ℕ)
    (hlen : freq.length = mag_db.length)
    (hsort : List.Sorted (fun a b => a < b) freq)
    (hin : ∀ p ∈ peaks, p < mag_db.length) :
    (∀ p ∈ peaks,
      searchLeft mag_db (mag_db.getD p 0 - 3) p ≤ p ∧
      p ≤ searchRight mag_db (mag_db.getD p 0 - 3) p ∧
      0 ≤ freq.getD (searchRight mag_db (mag_db.getD p 0 - 3) p) 0 -
          freq.getD (searchLeft mag_db (mag_db.getD p 0 - 3) p) 0) ∧
    (calculate_loss_tangent freq mag_db peaks).length = peaks.length ∧
    (∀ i, i < peaks.length →
      (calculate_loss_tangent freq mag_db peaks).getD i none =
        lossTangentAt freq mag_db (peaks.getD i 0)) ∧
    (∀ o ∈ calculate_loss_tangent freq mag_db peaks, ∀ v, o = some v → 0 < v) := by
  refine ⟨?_, by simp [calculate_loss_tangent], ?_, ?_⟩
  · intro p hp
    have hple : p < mag_db.length := hin p hp
    have h1 := searchLeft_le mag_db (mag_db.getD p 0 - 3) p
    have h2 := searchRight_ge mag_db (mag_db.getD p 0 - 3) p
    have h3 := searchRight_le_last mag_db (mag_db.getD p 0 - 3) p hple
    refine ⟨h1, h2, ?_⟩
    have hmono := sorted_getD_mono freq hsort
      (searchLeft mag_db (mag_db.getD p 0 - 3) p)
      (searchRight mag_db (mag_db.getD p 0 - 3) p)
      (h1.trans h2) (by omega)
    linarith
  · intro i hi
    exact getD_map peaks (lossTangentAt freq mag_db) i none 0 hi
  · intro o ho v hv
    rw [calculate_loss_tangent] at ho
    rcases List.mem_map.mp ho with ⟨p, _, rfl⟩
    exact lossTangentAt_pos freq mag_db p v hv

/-- Witness for C10 on a 3-point strictly increasing trace with one peak. -/
theorem loss_list_invariants_witness :
    searchLeft [0, 5, 0] ([(0 : ℚ), 5, 0].getD 1 0 - 3) 1 ≤ 1 ∧
    1 ≤ searchRight [0, 5, 0] ([(0 : ℚ), 5, 0].getD 1 0 - 3) 1 ∧
    0 ≤ [(1 : ℚ), 2, 3].getD (searchRight [0, 5, 0] ([(0 : ℚ), 5, 0].getD 1 0 - 3) 1) 0 -
        [(1 : ℚ), 2, 3].getD (searchLeft [0, 5, 0] ([(0 : ℚ), 5, 0].getD 1 0 - 3) 1) 0 :=
  (loss_list_invariants [1, 2, 3] [0, 5, 0] [1] rfl (by decide) (by decide)).1 1
    (by decide)

/-! ### Properties of peak detection -/

/-- Strict local maximum in the plateau-aware sense of the spec ("reject
plateaus' interior points, keep the apex"): `p` belongs to a maximal run
of equal magnitudes, strictly above both neighbouring samples of the run;
in particular the trace endpoints are never peaks. -/
def IsPlateauMax (x : List ℚ) (p : ℕ) : Prop :=
  ∃ l r, 1 ≤ l ∧ l ≤ p ∧ p ≤ r ∧ r + 1 < x.length ∧
    (∀ j, l ≤ j → j ≤ r → x.getD j 0 = x.getD p 0) ∧
    x.getD (l - 1) 0 < x.getD p 0 ∧ x.getD (r + 1) 0 < x.getD p 0

lemma scanAheadAux_ge (x : List ℚ) (xi : ℚ) :
    ∀ fuel i, i ≤ scanAheadAux x xi fuel i := by
  intro fuel
  induction fuel with
  | zero => intro i; simp [scanAheadAux]
  | succ n ih =>
      intro i
      rw [scanAheadAux]
      split
      · exact (Nat.le_succ i).trans (ih (i + 1))
      · exact le_refl _

lemma scanAheadAux_le (x : List ℚ) (xi : ℚ) :
    ∀ fuel i, scanAheadAux x xi fuel i ≤ i + fuel := by
  intro fuel
  induction fuel with
  | zero => intro i; simp [scanAheadAux]
  | succ n ih =>
      intro i
      rw [scanAheadAux]
      split
      · exact (ih (i + 1)).trans (by omega)
      · omega

lemma scanAheadAux_plateau (x : List ℚ) (xi : ℚ) :
    ∀ fuel i j, i ≤ j → j < scanAheadAux x xi fuel i → x.getD j 0 = xi := by
  intro fuel
  induction fuel with
  | zero => intro i j h1 h2; rw [scanAheadAux] at h2; omega
  | succ n ih =>
      intro i j h1 h2
      rw [scanAheadAux] at h2
      by_cases hc : x.getD i 0 = xi
      · rw [if_pos hc] at h2
        rcases Nat.lt_or_ge i j with hj | hj
        · exact ih (i + 1) j (by omega) h2
        · have : j = i := by omega
          rw [this]; exact hc
      · rw [if_neg hc] at h2
        omega

/-- Soundness invariant of scipy's `_local_maxima_1d` loop: every recorded
index is the midpoint of a plateau `[l, r]` inside `[i, iMax)`, constant
in magnitude, strictly above the samples flanking it. -/
lemma localMaximaAux_mem (x : List ℚ) (iMax : ℕ) :
    ∀ fuel i, 1 ≤ i → ∀ p ∈ localMaximaAux x iMax fuel i,
      ∃ l r, 1 ≤ l ∧ l ≤ p ∧ p ≤ r ∧ r + 1 ≤ iMax ∧
        (∀ j, l ≤ j → j ≤ r → x.getD j 0 = x.getD l 0) ∧
        x.getD (l - 1) 0 < x.getD l 0 ∧ x.getD (r + 1) 0 < x.getD l 0 := by
  intro fuel
  induction fuel with
  | zero => intro i _ p hp; rw [localMaximaAux] at hp; exact absurd hp (by simp)
  | succ n ih =>
      intro i hi p hp
      rw [localMaximaAux] at hp
      by_cases hguard : iMax ≤ i
      · rw [if_pos hguard] at hp
        exact absurd hp (by simp)
      rw [if_neg hguard] at hp
      by_cases hrise : x.getD (i - 1) 0 < x.getD i 0
      · rw [if_pos hrise] at hp
        simp only at hp
        by_cases hfall :
            x.getD (scanAheadAux x (x.getD i 0) (iMax - (i + 1)) (i + 1)) 0 < x.getD i 0
        · rw [if_pos hfall] at hp
          rcases List.mem_cons.mp hp with hhead | htail
          · have hage := scanAheadAux_ge x (x.getD i 0) (iMax - (i + 1)) (i + 1)
            have hale := scanAheadAux_le x (x.getD i 0) (iMax - (i + 1)) (i + 1)
            refine ⟨i, scanAheadAux x (x.getD i 0) (iMax - (i + 1)) (i + 1) - 1,
              hi, ?_, ?_, ?_, ?_, hrise, ?_⟩
            · omega
            · omega
            · omega
            · intro j hj1 hj2
              rcases Nat.eq_or_lt_of_le hj1 with hj | hj
              · rw [← hj]
              · exact scanAheadAux_plateau x (x.getD i 0) (iMax - (i + 1)) (i + 1) j
                  (by omega) (by omega)
            · have : scanAheadAux x (x.getD i 0) (iMax - (i + 1)) (i + 1) - 1 + 1 =
                  scanAheadAux x (x.getD i 0) (iMax - (i + 1)) (i + 1) := by omega
              rw [this]
              exact hfall
          · exact ih _ (by omega) p htail
        · rw [if_neg hfall] at hp
          exact ih _ (by omega) p hp
      · rw [if_neg hrise] at hp
        exact ih _ (by omega) p hp

/-- Every index scipy's local-maxima scan reports is a plateau-aware
strict local maximum, and in particular in range. -/
lemma localMaxima_isPlateauMax (x : List ℚ) (p : ℕ) (hp : p ∈ localMaxima x) :
    IsPlateauMax x p ∧ p < x.length := by
  rcases localMaximaAux_mem x (x.length - 1) x.length 1 (le_refl 1) p hp with
    ⟨l, r, h1l, hlp, hpr, hr, hplateau, hleft, hright⟩
  have hxlen : 1 ≤ x.length := by omega
  have hpl : x.getD p 0 = x.getD l 0 := hplateau p hlp hpr
  refine ⟨⟨l, r, h1l, hlp, hpr, by omega, ?_, ?_, ?_⟩, by omega⟩
  · intro j hj1 hj2
    rw [hpl]
    exact hplateau j hj1 hj2
  · rw [hpl]; exact hleft
  · rw [hpl]; exact hright

/-- Claim C8: if every sample of the trace is below
`median + minPeakDb`, `find_s21_peaks` returns the empty sequence; and in
general a sample is reported as a peak only if it is a (plateau-aware)
strict local maximum whose magnitude is at or above that threshold. -/
theorem peak_detector_sound (mag_db : List ℚ) (min_peak_db : ℚ) :
    ((∀ m ∈ mag_db, m < median mag_db + min_peak_db) →
      find_s21_peaks mag_db min_peak_db = []) ∧
    (∀ p ∈ find_s21_peaks mag_db min_peak_db,
      IsPlateauMax mag_db p ∧ median mag_db + min_peak_db ≤ mag_db.getD p 0) := by
  constructor
  · intro hbelow
    simp only [find_s21_peaks]
    rw [List.filter_eq_nil_iff]
    intro p hp
    have hrange := (localMaxima_isPlateauMax mag_db p hp).2
    have hmem : mag_db.getD p 0 ∈ mag_db := by
      rw [List.getD_eq_getElem _ _ hrange]
      exact List.getElem_mem hrange
    have := hbelow _ hmem
    simp only [decide_eq_true_eq]
    linarith
  · intro p hp
    simp only [find_s21_peaks] at hp
    have hmem := List.mem_filter.mp hp
    refine ⟨(localMaxima_isPlateauMax mag_db p hmem.1).1, ?_⟩
    exact of_decide_eq_true hmem.2

/-- Witness for C8: an all-flat trace produces no peaks; on `[0, 5, 0]`
with threshold `median + 1 = 1` the reported index 1 is a strict local
maximum above threshold. -/
theorem peak_detector_sound_witness :
    find_s21_peaks [0, 0, 0] 16 = [] ∧
    (IsPlateauMax [0, 5, 0] 1 ∧ median [0, 5, 0] + 1 ≤ [(0 : ℚ), 5, 0].getD 1 0) :=
  ⟨(peak_detector_sound [0, 0, 0] 16).1
      (by
        intro m hm
        have hmed : median [(0 : ℚ), 0, 0] = 0 := by
          norm_num [median, List.insertionSort, List.orderedInsert]
        rw [hmed]
        fin_cases hm <;> norm_num),
    (peak_detector_sound [0, 5, 0] 1).2 1
      (by
        have hmed : median [(0 : ℚ), 5, 0] = 0 := by
          norm_num [median, List.insertionSort, List.orderedInsert]
        norm_num [find_s21_peaks, hmed, localMaxima, localMaximaAux, scanAheadAux])⟩

/-! ### Absence of geometry and calibration validation

The source contains no input validation at all: the only error it can
raise deliberately is the no-peaks `RuntimeError` (line 109).  In Python,
a zero width or a zero/negative calibration input fails (or silently
produces `nan`) only in the middle of the arithmetic itself
(`ZeroDivisionError` from `12.0 * h / w`, `nan` from `np.sqrt` of a
negative number); there is no `InvalidGeometry` or
`InvalidCalibrationInput` path.  In this embedding (total real division
and `Real.sqrt`), the pipeline simply completes. -/

/-- The pipeline has exactly two outcomes: the no-peaks abort, or a full
result table with one row per detected peak.  No other error — in
particular neither `InvalidGeometry` nor `InvalidCalibrationInput` — is
ever produced, whatever the configuration. -/
lemma mainCore_cases (freq mag_db : List ℚ) (cfg : Config) :
    mainCore freq mag_db cfg = .error .NoPeaksDetected ∨
    ∃ res, mainCore freq mag_db cfg = .ok res ∧
      res.length = (find_s21_peaks mag_db cfg.minPeakDb).length := by
  by_cases hlen :
      ((find_s21_peaks mag_db cfg.minPeakDb).map (fun q => freq.getD q 0)).length = 0
  · left
    simp only [mainCore]
    rw [if_pos hlen]
  · right
    simp only [mainCore, if_neg hlen]
    exact ⟨_, rfl, by simp⟩

/-- Claim C2 (evidence of the code bug): even with a zero trace width the
pipeline performs no geometry check — it either aborts for lack of peaks
or completes the permittivity arithmetic for every mode; `InvalidGeometry`
is never produced.  (In Python, `w = 0` additionally makes the
`12.0 * h / w` step itself raise `ZeroDivisionError` — during, not before,
the arithmetic, and after `eps_eff` has already been computed.) -/
theorem no_geometry_validation (freq mag_db : List ℚ) (cfg : Config)
    (hw : cfg.traceWMM = 0) :
    mainCore freq mag_db cfg = .error .NoPeaksDetected ∨
    ∃ res, mainCore freq mag_db cfg = .ok res ∧
      res.length = (find_s21_peaks mag_db cfg.minPeakDb).length :=
  mainCore_cases freq mag_db cfg

/-- Witness for C2: a run with `w = 0` and one detected peak. -/
theorem no_geometry_validation_witness :
    mainCore [1, 2, 3] [0, 5, 0] ⟨100, 1.6, 0, 1, none⟩ = .error .NoPeaksDetected ∨
    ∃ res, mainCore [1, 2, 3] [0, 5, 0] ⟨100, 1.6, 0, 1, none⟩ = .ok res ∧
      res.length = (find_s21_peaks [0, 5, 0]
        (Config.minPeakDb ⟨100, 1.6, 0, 1, none⟩)).length :=
  no_geometry_validation [1, 2, 3] [0, 5, 0] ⟨100, 1.6, 0, 1, none⟩ rfl

/-- Claim C7 (evidence of the code bug): with calibration enabled and a
non-positive known permittivity or frequency, the pipeline performs no
validation: the ring length IS derived from the bad input
(`L = C0 · n / (f · sqrt(eps))`) and the run proceeds to the usual two
outcomes; `InvalidCalibrationInput` is never produced.  (In Python,
`eps < 0` silently yields `L = nan`, and `eps = 0` or `f = 0` raises
`ZeroDivisionError` inside the arithmetic of
`estimate_effective_length`.) -/
theorem no_calibration_validation (freq mag_db : List ℚ) (cfg : Config) (c : CalibConfig)
    (hc : cfg.calibrate = some c) (hbad : c.eps ≤ 0 ∨ c.freqHz ≤ 0) :
    ringLengthOf cfg = estimate_effective_length c.eps c.freqHz c.modeN ∧
    (mainCore freq mag_db cfg = .error .NoPeaksDetected ∨
      ∃ res, mainCore freq mag_db cfg = .ok res ∧
        res.length = (find_s21_peaks mag_db cfg.minPeakDb).length) := by
  constructor
  · rw [ringLengthOf, hc]
  · exact mainCore_cases freq mag_db cfg

/-- Witness for C7: calibration from a negative known permittivity. -/
theorem no_calibration_validation_witness :
    ringLengthOf ⟨100, 1.6, 3, 1, some ⟨-1, 1000000000, 1⟩⟩ =
      estimate_effective_length (-1) 1000000000 1 ∧
    (mainCore [1, 2, 3] [0, 5, 0] ⟨100, 1.6, 3, 1, some ⟨-1, 1000000000, 1⟩⟩ =
        .error .NoPeaksDetected ∨
      ∃ res, mainCore [1, 2, 3] [0, 5, 0] ⟨100, 1.6, 3, 1, some ⟨-1, 1000000000, 1⟩⟩ =
          .ok res ∧
        res.length = (find_s21_peaks [0, 5, 0]
          (Config.minPeakDb ⟨100, 1.6, 3, 1, some ⟨-1, 1000000000, 1⟩⟩)).length) :=
  no_calibration_validation [1, 2, 3] [0, 5, 0] ⟨100, 1.6, 3, 1, some ⟨-1, 1000000000, 1⟩⟩
    ⟨-1, 1000000000, 1⟩ rfl (Or.inl (by norm_num))

end SubstratePermittivity
